import Mathlib

/-!
Verification of the batch file-selection / variable-merge / resampling pipeline
of the bioreactor dashboard (`src/app.py`), as a shallow embedding in Lean.

Strings are modelled as Lean `String` / `List Char`; Python `str.isalnum` is
modelled by `Char.isAlphanum` and Python whitespace by `Char.isWhitespace`
(the repository only ever handles ASCII names, where the two agree).
Dataframe value columns are modelled as lists of rationals; timestamps as
natural numbers (seconds).
-/

/-- Python `str.rstrip()`: drop trailing whitespace characters. -/
def pyRstrip (l : List Char) : List Char :=
  (l.reverse.dropWhile (fun c => c.isWhitespace)).reverse

/-- The per-character replacement of `sanitize_filename` (app.py line 60):
`c if c.isalnum() or c in (' ', '_', '-') else '_'`. -/
def sanChar (c : Char) : Char :=
  if c.isAlphanum || c = ' ' || c = '_' || c = '-' then c else '_'

/-- `sanitize_filename` (app.py lines 56-60):
`"".join(c if c.isalnum() or c in (' ', '_', '-') else '_' for c in filename).rstrip()`. -/
def sanitize_filename (filename : String) : String :=
  ⟨pyRstrip (filename.data.map sanChar)⟩

/-- The substitution rule exactly as the spec states it: a character that is
not alphanumeric and not a space, underscore or hyphen becomes an underscore. -/
def sanCharSpec (c : Char) : Char :=
  if ¬ (c.isAlphanum = true ∨ c ∈ ([' ', '_', '-'] : List Char)) then '_' else c

/-- Python `s.split(sep, 1)` for a one-character separator, acting on the
character list of `s`. Returns `none` when the separator does not occur:
Python then returns a one-element list and the two-name unpacking at
app.py line 963 raises `ValueError` (caught there and turned into `continue`). -/
def pySplitFirst (sep : Char) : List Char → Option (List Char × List Char)
  | [] => none
  | c :: rest =>
    if c = sep then some ([], rest)
    else (pySplitFirst sep rest).map (fun pr => (c :: pr.1, pr.2))

/-- The dropdown value built by `update_variable_dropdown` (app.py line 884):
`f"{prefix}_{var_name}"`. -/
def dropdown_value (pfx var_name : String) : String :=
  pfx ++ "_" ++ var_name

/-- The recovery step of `update_graph` (app.py line 963):
`prefix, var_name = var.split('_', 1)`. -/
def update_graph_split (var : String) : Option (String × String) :=
  (pySplitFirst '_' var.data).map (fun pr => (⟨pr.1⟩, ⟨pr.2⟩))

/-- Python `str.split(sep)` (no maxsplit) for a one-character separator:
splits at every occurrence and keeps empty pieces; splitting the empty string
gives a one-element list holding the empty string. -/
def pySplit (sep : Char) : List Char → List (List Char)
  | [] => [[]]
  | c :: rest =>
    match pySplit sep rest with
    | [] => [[]]
    | h :: t => if c = sep then [] :: h :: t else (c :: h) :: t

def digitVal (c : Char) : ℕ := c.toNat - '0'.toNat

/-- Preference-ordered regex alternatives CPython uses for `%m`:
`1[0-2]`, `0[1-9]`, `[1-9]`; each hit gives the month value and the leftover. -/
def monthAlts (l : List Char) : List (ℕ × List Char) :=
  (match l with
   | a :: b :: rest =>
     (if a = '1' && ('0' ≤ b && b ≤ '2') then [(10 + digitVal b, rest)] else []) ++
     (if a = '0' && ('1' ≤ b && b ≤ '9') then [(digitVal b, rest)] else [])
   | _ => []) ++
  (match l with
   | a :: rest => if '1' ≤ a && a ≤ '9' then [(digitVal a, rest)] else []
   | _ => [])

/-- Preference-ordered regex alternatives CPython uses for `%d`:
`3[01]`, `[12][0-9]`, `0[1-9]`, `[1-9]`. -/
def dayAlts (l : List Char) : List (ℕ × List Char) :=
  (match l with
   | a :: b :: rest =>
     (if a = '3' && (b = '0' || b = '1') then [(30 + digitVal b, rest)] else []) ++
     (if (a = '1' || a = '2') && b.isDigit then [(10 * digitVal a + digitVal b, rest)] else []) ++
     (if a = '0' && ('1' ≤ b && b ≤ '9') then [(digitVal b, rest)] else [])
   | _ => []) ++
  (match l with
   | a :: rest => if '1' ≤ a && a ≤ '9' then [(digitVal a, rest)] else []
   | _ => [])

/-- The regex match for `%m%d` after the year: the engine commits to the first
month alternative whose remainder admits a day alternative (leftmost
preference, no anchoring on the end of the string). -/
def matchMD (l : List Char) : Option (ℕ × ℕ × List Char) :=
  (monthAlts l).findSome? (fun ma =>
    match dayAlts ma.2 with
    | [] => none
    | da :: _ => some (ma.1, da.1, da.2))

structure Date where
  y : ℕ
  m : ℕ
  d : ℕ
deriving DecidableEq, Repr

def isLeap (y : ℕ) : Bool := y % 4 = 0 && (y % 100 != 0 || y % 400 = 0)

def daysInMonth (y m : ℕ) : ℕ :=
  if m = 2 then (if isLeap y then 29 else 28)
  else if m = 4 || m = 6 || m = 9 || m = 11 then 30 else 31

/-- `datetime.strptime(s, "%Y%m%d")`: four digits of year, then `%m%d` by the
regex above, then the whole string must have been consumed ("unconverted data
remains" otherwise), then `datetime(y, m, d)` validates the calendar day.
`none` stands for the `ValueError` the loop in `filter_files_by_date` catches. -/
def strptimeYYYYMMDD (s : List Char) : Option Date :=
  match s with
  | c1 :: c2 :: c3 :: c4 :: rest =>
    if c1.isDigit && c2.isDigit && c3.isDigit && c4.isDigit then
      match matchMD rest with
      | some (m, d, leftover) =>
        if leftover = [] then
          let y := 1000 * digitVal c1 + 100 * digitVal c2 + 10 * digitVal c3 + digitVal c4
          if 1 ≤ y && 1 ≤ d && d ≤ daysInMonth y m then some ⟨y, m, d⟩ else none
        else none
      | none => none
    else none
  | _ => none

/-- Midnight `datetime` comparison of two calendar dates (months ≤ 12 and
days ≤ 31, so the packed key ordering is the lexicographic one). -/
def dateLe (a b : Date) : Bool :=
  a.y * 10000 + a.m * 100 + a.d ≤ b.y * 10000 + b.m * 100 + b.d

/-- The per-file test of `filter_files_by_date` (app.py lines 41-52): fewer
than three underscore-separated parts means `continue`; a `strptime` failure
on `file_parts[2]` is caught and the file skipped; otherwise the file is kept
iff `start_date <= file_date <= end_date`. -/
def keep_file (s e : Date) (f : List Char) : Bool :=
  let fileParts := pySplit '_' f
  if fileParts.length < 3 then false
  else
    match strptimeYYYYMMDD (fileParts.getD 2 []) with
    | some d => dateLe s d && dateLe d e
    | none => false

/-- `filter_files_by_date` (app.py lines 39-53). -/
def filter_files_by_date (files : List (List Char)) (s e : Date) : List (List Char) :=
  files.filter (keep_file s e)

/-- `skip_variables` (app.py lines 304-311): binary and percentage variables
for which outlier removal is meant to be skipped. -/
def skip_variables : List String :=
  ["30P001.HMI.DATA_2",
   "30P002.HMI.DATA_2",
   "30P001.HMI.STATUS",
   "AO Values_10R001",
   "AO Values_10R002",
   "AO Values_10R003"]

/-- pandas `Series.quantile(q)` with the default linear interpolation:
on the sorted values, position `h = q * (n - 1)`, result
`x_i + (h - i) * (x_(i+1) - x_i)` with `i = floor h`. -/
def quantile (vals : List ℚ) (q : ℚ) : ℚ :=
  let s := List.insertionSort (· ≤ ·) vals
  let n := s.length
  if n = 0 then 0 else
    let h : ℚ := q * ((n : ℚ) - 1)
    let i : ℕ := (Int.floor h).toNat
    let g : ℚ := h - (i : ℚ)
    let xi := s.getD i 0
    let xi1 := s.getD (i + 1) xi
    xi + g * (xi1 - xi)

/-- `remove_outliers` (app.py lines 83-94). A dataframe row is modelled as a
(timestamp-in-seconds, VarValue) pair; the quantiles and the row filter act on
the `VarValue` column, the only numeric column the sole call site filters on.
When `column` is on the skip list the rows are returned unchanged. -/
def remove_outliers (rows : List (ℕ × ℚ)) (column : String) : List (ℕ × ℚ) :=
  if column ∈ skip_variables then rows
  else
    let vals := rows.map (fun r => r.2)
    let Q1 := quantile vals (1/4)
    let Q3 := quantile vals (3/4)
    let IQR := Q3 - Q1
    let lower_bound := Q1 - 3/2 * IQR
    let upper_bound := Q3 + 3/2 * IQR
    rows.filter (fun r => decide (lower_bound ≤ r.2) && decide (r.2 ≤ upper_bound))

/-- The values of the rows whose timestamp falls in minute bucket `b`. -/
def bucketVals (rows : List (ℕ × ℚ)) (b : ℕ) : List ℚ :=
  (rows.filter (fun r => r.1 / 60 == b)).map (fun r => r.2)

def meanQ (xs : List ℚ) : ℚ := xs.sum / (xs.length : ℚ)

/-- Emit `n` consecutive minute buckets starting at `b`: a non-empty bucket
carries the mean of its readings, an empty one repeats the previous value. -/
def ffillFrom (rows : List (ℕ × ℚ)) (prev : ℚ) (b : ℕ) : ℕ → List (ℕ × ℚ)
  | 0 => []
  | n + 1 =>
    match bucketVals rows b with
    | [] => (b, prev) :: ffillFrom rows prev (b + 1) n
    | x :: xs => (b, meanQ (x :: xs)) :: ffillFrom rows (meanQ (x :: xs)) (b + 1) n

/-- `df.resample('1T').mean().fillna(method='ffill')` (app.py line 987) on a
frame indexed by timestamps in seconds: one bucket per minute from the first
to the last occupied minute, a bucket's value being the mean of its readings,
empty buckets forward-filled (the first bucket is never empty). -/
def resample1T_ffill (rows : List (ℕ × ℚ)) : List (ℕ × ℚ) :=
  match rows with
  | [] => []
  | r :: rs =>
    let bs := (r :: rs).map (fun p => p.1 / 60)
    let b0 := bs.foldl min (r.1 / 60)
    let b1 := bs.foldl max (r.1 / 60)
    ffillFrom (r :: rs) 0 b0 (b1 + 1 - b0)

/-- The per-variable render pipeline of `update_graph` (app.py lines 980-991)
after timestamp parsing and numeric conversion: outliers are removed with the
literal column name `VarValue` (line 983), then the series is resampled
unless the variable name is on the skip list (line 985). -/
def update_graph_series (var_name : String) (rows : List (ℕ × ℚ)) : List (ℕ × ℚ) :=
  let df := remove_outliers rows "VarValue"
  if var_name ∉ skip_variables then resample1T_ffill df else df

/-- The axis-allocation state machine of `update_graph` (app.py lines
1094-1105): the dict `yaxes_used` assigns each newly seen display-unit string
the slot `len(yaxes_used) + 1`, and a trace is drawn on the secondary axis
iff its unit's slot exceeds 1. The figure is built with exactly one primary
and one secondary Y-axis (`make_subplots` at line 1091), so the Boolean here
is the complete axis placement. `seen` is the insertion-ordered key list of
`yaxes_used`. -/
def axisGo (seen : List String) : List String → List (String × Bool)
  | [] => []
  | u :: rest =>
    let seen2 := if u ∈ seen then seen else seen ++ [u]
    (u, decide (seen2.indexOf u + 1 > 1)) :: axisGo seen2 rest

/-- Axis placement for the plotted groups' units in plot order: `true` means
the trace goes to the single secondary Y-axis. -/
def axis_assignment (units : List String) : List (String × Bool) :=
  axisGo [] units

/-- `variable_names` (app.py lines 198-220): the fixed set of process
variables the batch merger extracts. -/
def variable_names : List String :=
  ["AI Values_78TT001 - Analog input",
   "AI Values_78TT002 - Analog input",
   "AI Values_10TT002 - Analog input",
   "AI Values_20TTC001 - Analog input",
   "AI Values_20FTC003 - analog input",
   "AI Values_78FT001 - Analog input",
   "AI Values_20FTC002 - Analog input",
   "AI Values_20XTC001 - Analog input",
   "AI Values_20XTC002 - Analog input",
   "AI Values_20XT004 - Analog input",
   "AI Values_20XTC003 - Analog input",
   "AI Values_10PT001 - Analog input",
   "30P001.HMI.DATA_2",
   "30P002.HMI.DATA_2",
   "30P001.HMI.STATUS",
   "AO Values_10R001",
   "AO Values_10R002",
   "AO Values_10R003",
   "AI Values_20PT004 - Analog input",
   "AI Values_78PT002 - Analog input",
   "AI Values_78PT001 - Analog input"]

/-- One parsed CSV row: column name to cell text. -/
abbrev Row := List (String × String)

/-- A raw export file as `pd.read_csv(..., delimiter=';', on_bad_lines='skip')`
delivers it: the column names and the surviving rows (malformed rows were
already dropped by the parser). -/
structure RawFrame where
  columns : List String
  rows : List Row
deriving DecidableEq

def getCell (row : Row) (c : String) : Option String :=
  (row.find? (fun kv => kv.1 == c)).map (fun kv => kv.2)

/-- The rows of `f` whose `VarName` cell equals `v`
(`df[df['VarName'] == var_name]`, app.py line 326). -/
def fileRows (f : RawFrame) (v : String) : List Row :=
  f.rows.filter (fun row => getCell row "VarName" == some v)

/-- The dict built by the loop of `process_csv_file` (app.py lines 324-329):
one entry per variable with a non-empty filtered frame, in `variable_names`
order (Python dict insertion order). -/
def frameDict (f : RawFrame) : List (String × List Row) :=
  variable_names.filterMap (fun v =>
    if (fileRows f v).isEmpty then none else some (v, fileRows f v))

/-- `process_csv_file` (app.py lines 320-330). Indexing `df['VarName']` on a
frame without that column raises `KeyError`, and nothing in the function or
its caller catches it; the `Except.error` models that uncaught exception. -/
def process_csv_file (f : RawFrame) : Except String (List (String × List Row)) :=
  if "VarName" ∈ f.columns then .ok (frameDict f)
  else .error "KeyError: VarName"

/-- One merge step of `update_file_list` (app.py lines 837-839): for each
variable appearing in the processed file, append its rows to that variable's
accumulator entry. -/
def addFrames (acc : List (String × List Row)) (dfs : List (String × List Row)) :
    List (String × List Row) :=
  acc.map (fun kv =>
    match dfs.find? (fun d => d.1 == kv.1) with
    | some d => (kv.1, kv.2 ++ d.2)
    | none => kv)

/-- `merged_dataframes = {var: pd.DataFrame() for var in variable_names}`
(app.py lines 314 and 832). -/
def emptyAcc : List (String × List Row) :=
  variable_names.map (fun v => (v, []))

/-- The file loop of `update_file_list` (app.py lines 834-839): there is no
exception handler around `process_csv_file`, so its `KeyError` aborts the
whole loop. -/
def mergeFold (acc : List (String × List Row)) :
    List RawFrame → Except String (List (String × List Row))
  | [] => .ok acc
  | f :: rest =>
    match process_csv_file f with
    | .error e => .error e
    | .ok dfs => mergeFold (addFrames acc dfs) rest

/-- `output_file = f"{filename_prefix}_{sanitized_var_name}.csv"`
(app.py lines 844-845). -/
def output_file (filename_pfx v : String) : String :=
  filename_pfx ++ "_" ++ sanitize_filename v ++ ".csv"

/-- The merge-and-save core of `update_file_list` (app.py lines 830-852),
with the module-level accumulator passed explicitly as `prev`: line 832
re-initializes it from empty, so `prev` is discarded; each selected file is
processed (a failure aborting the callback), and finally one blob per
variable with a non-empty accumulator is uploaded
(`blob.upload_from_string`, unconditional overwrite). The result is the
ordered list of uploaded blob names. -/
def update_file_list (prev : List (String × List Row)) (files : List RawFrame)
    (filename_pfx : String) : Except String (List String) :=
  match mergeFold emptyAcc files with
  | .error e => .error e
  | .ok merged =>
      .ok ((merged.filter (fun kv => !kv.2.isEmpty)).map
        (fun kv => output_file filename_pfx kv.1))

/-- The rows a full merge run accumulates for variable `v`: the matching rows
of every selected file, in file-then-row order. -/
def mergedRows (files : List RawFrame) (v : String) : List Row :=
  (files.map (fun f => fileRows f v)).flatten

/-- A well-formed one-row export frame for the variable `30P001.HMI.DATA_2`. -/
def goodFrame : RawFrame :=
  ⟨["VarName", "TimeString", "VarValue"],
   [[("VarName", "30P001.HMI.DATA_2"), ("TimeString", "01-01-2024 00:00:00"),
     ("VarValue", "1")]]⟩

/-- An export frame missing the `VarName` column. -/
def badFrame : RawFrame :=
  ⟨["TimeString", "VarValue"],
   [[("TimeString", "01-01-2024 00:00:00"), ("VarValue", "2")]]⟩

lemma sanChar_sanChar (c : Char) : sanChar (sanChar c) = sanChar c := by
  unfold sanChar
  by_cases h : (c.isAlphanum || c = ' ' || c = '_' || c = '-') = true
  · simp [h]
  · simp [h]

lemma mem_pyRstrip {l : List Char} {c : Char} (h : c ∈ pyRstrip l) : c ∈ l := by
  unfold pyRstrip at h
  have h2 := List.mem_reverse.mp h
  have h3 : c ∈ l.reverse := List.dropWhile_subset _ h2
  exact List.mem_reverse.mp h3

lemma dropWhile_dropWhile (p : Char → Bool) (l : List Char) :
    (l.dropWhile p).dropWhile p = l.dropWhile p := by
  induction l with
  | nil => simp
  | cons a t ih =>
    by_cases h : p a = true
    · simpa [List.dropWhile_cons, h] using ih
    · simp [List.dropWhile_cons, h]

lemma pyRstrip_pyRstrip (l : List Char) : pyRstrip (pyRstrip l) = pyRstrip l := by
  unfold pyRstrip
  rw [List.reverse_reverse, dropWhile_dropWhile]

lemma sanChar_fixed_of_mem_map {d : List Char} {c : Char} (h : c ∈ d.map sanChar) :
    sanChar c = c := by
  rcases List.mem_map.mp h with ⟨y, _, rfl⟩
  exact sanChar_sanChar y

/-- C8: `sanitize_filename` replaces each character that is not alphanumeric
and not a space, underscore, or hyphen with an underscore and strips trailing
whitespace from the result; in particular `"A/B C"` maps to `"A_B C"`. -/
theorem C8_sanitize_filename_spec :
    (∀ s : String, (sanitize_filename s).data = pyRstrip (s.data.map sanCharSpec)) ∧
    sanitize_filename "A/B C" = "A_B C" := by
  constructor
  · intro s
    have h : s.data.map sanChar = s.data.map sanCharSpec := by
      apply List.map_congr_left
      intro c _
      unfold sanChar sanCharSpec
      by_cases hc : (c.isAlphanum || c = ' ' || c = '_' || c = '-') = true
      · have hc2 : c.isAlphanum = true ∨ c ∈ ([' ', '_', '-'] : List Char) := by
          simp only [Bool.or_eq_true, decide_eq_true_eq] at hc
          rcases hc with ((h1 | h2) | h3) | h4
          · exact Or.inl h1
          · exact Or.inr (by simp [h2])
          · exact Or.inr (by simp [h3])
          · exact Or.inr (by simp [h4])
        rw [if_pos hc, if_neg (not_not_intro hc2)]
      · have hc2 : ¬ (c.isAlphanum = true ∨ c ∈ ([' ', '_', '-'] : List Char)) := by
          simp only [Bool.or_eq_true, decide_eq_true_eq] at hc
          push_neg at hc
          intro hmem
          rcases hmem with h1 | h2
          · exact absurd h1 (by tauto)
          · simp only [List.mem_cons, List.mem_singleton] at h2
            tauto
        rw [if_neg hc, if_pos hc2]
    unfold sanitize_filename
    rw [h]
  · rfl

/-- C10: `sanitize_filename` is idempotent: applying it twice gives the same
result as applying it once, because every output character is already in the
kept-character set and the output has no trailing whitespace. -/
theorem C10_sanitize_filename_idempotent (s : String) :
    sanitize_filename (sanitize_filename s) = sanitize_filename s := by
  unfold sanitize_filename
  have h1 : (pyRstrip (s.data.map sanChar)).map sanChar = pyRstrip (s.data.map sanChar) := by
    have : ∀ c ∈ pyRstrip (s.data.map sanChar), sanChar c = c := by
      intro c hc
      exact sanChar_fixed_of_mem_map (mem_pyRstrip hc)
    calc (pyRstrip (s.data.map sanChar)).map sanChar
        = (pyRstrip (s.data.map sanChar)).map id := List.map_congr_left this
      _ = pyRstrip (s.data.map sanChar) := List.map_id _
  simp only [h1, pyRstrip_pyRstrip]

lemma pySplitFirst_eq_some_append {sep : Char} :
    ∀ {l a b : List Char}, pySplitFirst sep l = some (a, b) → a ++ sep :: b = l := by
  intro l
  induction l with
  | nil => intro a b h; simp [pySplitFirst] at h
  | cons c rest ih =>
    intro a b h
    by_cases hc : c = sep
    · simp [pySplitFirst, hc] at h
      rcases h with ⟨rfl, rfl⟩
      simp [hc]
    · simp only [pySplitFirst, if_neg hc, Option.map_eq_some'] at h
      rcases h with ⟨⟨a1, b1⟩, hrec, heq⟩
      simp only [Prod.mk.injEq] at heq
      rw [← heq.1, ← heq.2]
      simpa using congrArg (c :: ·) (ih hrec)

lemma pySplitFirst_sep_not_mem_fst {sep : Char} :
    ∀ {l a b : List Char}, pySplitFirst sep l = some (a, b) → sep ∉ a := by
  intro l
  induction l with
  | nil => intro a b h; simp [pySplitFirst] at h
  | cons c rest ih =>
    intro a b h
    by_cases hc : c = sep
    · simp [pySplitFirst, hc] at h
      rcases h with ⟨rfl, rfl⟩
      simp
    · simp only [pySplitFirst, if_neg hc, Option.map_eq_some'] at h
      rcases h with ⟨⟨a1, b1⟩, hrec, heq⟩
      simp only [Prod.mk.injEq] at heq
      rw [← heq.1]
      intro hmem
      rcases List.mem_cons.mp hmem with h1 | h2
      · exact hc h1.symm
      · exact ih hrec h2

lemma pySplitFirst_append_of_not_mem {sep : Char} :
    ∀ {p : List Char} (v : List Char), sep ∉ p →
      pySplitFirst sep (p ++ sep :: v) = some (p, v) := by
  intro p
  induction p with
  | nil => intro v _; simp [pySplitFirst]
  | cons c rest ih =>
    intro v hmem
    have hc : ¬ c = sep := fun h => hmem (by simp [h])
    have hrest : sep ∉ rest := fun h => hmem (List.mem_cons_of_mem _ h)
    simp only [List.cons_append, pySplitFirst, if_neg hc]
    show Option.map (fun pr => (c :: pr.1, pr.2)) (pySplitFirst sep (rest ++ sep :: v))
        = some (c :: rest, v)
    rw [ih v hrest]
    rfl

lemma string_eq_of_data {s t : String} (h : s.data = t.data) : s = t := by
  cases s; cases t; cases h; rfl

lemma dropdown_value_data (pfx v : String) :
    (dropdown_value pfx v).data = pfx.data ++ '_' :: v.data := by
  unfold dropdown_value
  rw [String.data_append, String.data_append]
  simp

/-- C9: the dropdown value `f"{prefix}_{variable}"` is split by `update_graph`
at the first underscore; the pair `(prefix, variable)` is recovered exactly
when the prefix contains no underscore, rejoining the two parts with an
underscore always reconstructs the original file-path string, and for a
prefix containing an underscore the recovered variable name differs from the
true variable name. -/
theorem C9_prefix_variable_roundtrip (pfx v : String) :
    (∀ a b : String, update_graph_split (dropdown_value pfx v) = some (a, b) →
        a ++ "_" ++ b = dropdown_value pfx v) ∧
    (update_graph_split (dropdown_value pfx v) = some (pfx, v) ↔ '_' ∉ pfx.data) ∧
    ('_' ∈ pfx.data → ∀ a b : String,
        update_graph_split (dropdown_value pfx v) = some (a, b) → b ≠ v) := by
  refine ⟨?_, ⟨?_, ?_⟩, ?_⟩
  · intro a b h
    unfold update_graph_split at h
    rcases Option.map_eq_some'.mp h with ⟨⟨a1, b1⟩, hsplit, heq⟩
    simp only [Prod.mk.injEq] at heq
    have hrec := pySplitFirst_eq_some_append hsplit
    apply string_eq_of_data
    rw [String.data_append, String.data_append, ← heq.1, ← heq.2]
    simpa using hrec
  · intro h
    unfold update_graph_split at h
    rcases Option.map_eq_some'.mp h with ⟨⟨a1, b1⟩, hsplit, heq⟩
    simp only [Prod.mk.injEq] at heq
    have ha1 : a1 = pfx.data := by
      have := congrArg String.data heq.1
      simpa using this
    rw [ha1] at hsplit
    exact pySplitFirst_sep_not_mem_fst hsplit
  · intro h
    unfold update_graph_split
    rw [dropdown_value_data, pySplitFirst_append_of_not_mem v.data h]
    rfl
  · intro hmem a b h hbv
    unfold update_graph_split at h
    rcases Option.map_eq_some'.mp h with ⟨⟨a1, b1⟩, hsplit, heq⟩
    simp only [Prod.mk.injEq] at heq
    have hb1 : b1 = v.data := by
      have := congrArg String.data heq.2
      rw [hbv] at this
      simpa using this
    have hrec := pySplitFirst_eq_some_append hsplit
    rw [dropdown_value_data, hb1] at hrec
    have ha1 : a1 = pfx.data := by
      have : a1 ++ '_' :: v.data = pfx.data ++ '_' :: v.data := hrec
      exact List.append_cancel_right this
    rw [ha1] at hsplit
    exact pySplitFirst_sep_not_mem_fst hsplit hmem

/-- Witness for C9: for the underscore-free batch name `"Batch1"` and a real
variable name, the split recovers the original pair. -/
theorem C9_prefix_variable_roundtrip_witness :
    update_graph_split (dropdown_value "Batch1" "AI Values_78TT001 - Analog input") =
      some ("Batch1", "AI Values_78TT001 - Analog input") :=
  (C9_prefix_variable_roundtrip "Batch1" "AI Values_78TT001 - Analog input").2.1.mpr
    (by decide)

/-- C3 counterexample: the claim says `x_20240115_y.csv` is kept for the
range 2024-01-01 .. 2024-01-31, but the code parses the third
underscore-delimited token, which for this name is `y.csv`; the parse fails
and the file is skipped. -/
theorem C3_counterexample_third_token :
    filter_files_by_date ["x_20240115_y.csv".data] ⟨2024, 1, 1⟩ ⟨2024, 1, 31⟩ = [] := by
  decide

/-- C3 (amended): the date filter keeps exactly the listed files whose third
underscore-delimited token parses as `YYYYMMDD` to a date inside the
inclusive range; a name whose token fails to parse (such as
`x_20240115_y.csv`, whose third token is `y.csv`) is skipped without
aborting, while `a_b_20240115_y.csv`, whose third token is the date, is kept
for 2024-01-01 .. 2024-01-31 and excluded for 2024-02-01 .. 2024-02-28. -/
theorem C3_date_filter (files : List (List Char)) (s e : Date) (f : List Char) :
    (f ∈ filter_files_by_date files s e ↔
      f ∈ files ∧ 3 ≤ (pySplit '_' f).length ∧
        ∃ d : Date, strptimeYYYYMMDD ((pySplit '_' f).getD 2 []) = some d ∧
          dateLe s d = true ∧ dateLe d e = true) ∧
    filter_files_by_date ["a_b_20240115_y.csv".data] ⟨2024, 1, 1⟩ ⟨2024, 1, 31⟩
      = ["a_b_20240115_y.csv".data] ∧
    filter_files_by_date ["a_b_20240115_y.csv".data] ⟨2024, 2, 1⟩ ⟨2024, 2, 28⟩ = [] := by
  refine ⟨?_, by decide, by decide⟩
  unfold filter_files_by_date
  rw [List.mem_filter]
  constructor
  · rintro ⟨hmem, hkeep⟩
    refine ⟨hmem, ?_⟩
    unfold keep_file at hkeep
    by_cases hlen : (pySplit '_' f).length < 3
    · rw [if_pos hlen] at hkeep
      exact absurd hkeep (by simp)
    · rw [if_neg hlen] at hkeep
      refine ⟨by omega, ?_⟩
      rcases hparse : strptimeYYYYMMDD ((pySplit '_' f).getD 2 []) with _ | d
      · rw [hparse] at hkeep
        exact absurd hkeep (by simp)
      · rw [hparse] at hkeep
        simp only [Bool.and_eq_true] at hkeep
        exact ⟨d, rfl, hkeep.1, hkeep.2⟩
  · rintro ⟨hmem, hlen, d, hparse, hs, he⟩
    refine ⟨hmem, ?_⟩
    unfold keep_file
    rw [if_neg (by omega), hparse]
    simp [hs, he]

lemma ffillFrom_succ_empty {rows : List (ℕ × ℚ)} {b : ℕ} (prev : ℚ) (n : ℕ)
    (h : bucketVals rows b = []) :
    ffillFrom rows prev b (n + 1) = (b, prev) :: ffillFrom rows prev (b + 1) n := by
  conv_lhs => rw [ffillFrom]
  rw [h]

lemma ffillFrom_succ_single {rows : List (ℕ × ℚ)} {b : ℕ} {x : ℚ} (prev : ℚ) (n : ℕ)
    (h : bucketVals rows b = [x]) :
    ffillFrom rows prev b (n + 1) = (b, meanQ [x]) :: ffillFrom rows (meanQ [x]) (b + 1) n := by
  conv_lhs => rw [ffillFrom]
  rw [h]

lemma meanQ_single (x : ℚ) : meanQ [x] = x := by
  unfold meanQ
  simp

lemma resample_two (t1 t2 : ℕ) (v1 v2 : ℚ) (q : ℕ)
    (h1 : t1 / 60 = q) (h2 : t2 / 60 = q + 3) :
    resample1T_ffill [(t1, v1), (t2, v2)] = [(q, v1), (q+1, v1), (q+2, v1), (q+3, v2)] := by
  have hmin : min (min (t1 / 60) (t1 / 60)) (t2 / 60) = q := by
    rw [h1, h2, min_self]
    exact min_eq_left (by omega)
  have hmax : max (max (t1 / 60) (t1 / 60)) (t2 / 60) = q + 3 := by
    rw [h1, h2, max_self]
    exact max_eq_right (by omega)
  have e1 : (t1 / 60 == q) = true := beq_iff_eq.mpr h1
  have n2 : (t2 / 60 == q) = false := beq_eq_false_iff_ne.mpr (by omega)
  have n11 : (t1 / 60 == q + 1) = false := beq_eq_false_iff_ne.mpr (by omega)
  have n21 : (t2 / 60 == q + 1) = false := beq_eq_false_iff_ne.mpr (by omega)
  have n12 : (t1 / 60 == q + 2) = false := beq_eq_false_iff_ne.mpr (by omega)
  have n22 : (t2 / 60 == q + 2) = false := beq_eq_false_iff_ne.mpr (by omega)
  have n13 : (t1 / 60 == q + 3) = false := beq_eq_false_iff_ne.mpr (by omega)
  have e2 : (t2 / 60 == q + 3) = true := beq_iff_eq.mpr h2
  have hb0 : bucketVals [(t1, v1), (t2, v2)] q = [v1] := by
    unfold bucketVals
    simp [List.filter, e1, n2]
  have hb1 : bucketVals [(t1, v1), (t2, v2)] (q + 1) = [] := by
    unfold bucketVals
    simp [List.filter, n11, n21]
  have hb2 : bucketVals [(t1, v1), (t2, v2)] (q + 2) = [] := by
    unfold bucketVals
    simp [List.filter, n12, n22]
  have hb3 : bucketVals [(t1, v1), (t2, v2)] (q + 3) = [v2] := by
    unfold bucketVals
    simp [List.filter, n13, e2]
  unfold resample1T_ffill
  simp only [List.map, List.foldl, hmin, hmax]
  have hcount : q + 3 + 1 - q = 4 := by omega
  rw [hcount]
  rw [show (4:ℕ) = 3 + 1 from rfl, ffillFrom_succ_single 0 3 hb0]
  rw [show (3:ℕ) = 2 + 1 from rfl, ffillFrom_succ_empty (meanQ [v1]) 2 hb1]
  rw [show (2:ℕ) = 1 + 1 from rfl, ffillFrom_succ_empty (meanQ [v1]) 1 hb2]
  rw [show (1:ℕ) = 0 + 1 from rfl, ffillFrom_succ_single (meanQ [v1]) 0 hb3]
  rw [show ffillFrom [(t1, v1), (t2, v2)] (meanQ [v2]) (q + 3 + 1) 0 = [] from rfl]
  rw [meanQ_single, meanQ_single]

/-- C6: for a column name not on the skip list, `remove_outliers` computes Q1
and Q3 of the value column, sets IQR = Q3 - Q1, and keeps exactly the rows
whose value lies within [Q1 - 1.5*IQR, Q3 + 1.5*IQR]; for the values
[1,2,3,4,100] the value 100 is excluded while 1,2,3,4 are kept. -/
theorem C6_remove_outliers_iqr (rows : List (ℕ × ℚ)) (column : String)
    (h : column ∉ skip_variables) :
    (remove_outliers rows column =
      rows.filter (fun r =>
        decide (quantile (rows.map (fun p => p.2)) (1/4)
            - 3/2 * (quantile (rows.map (fun p => p.2)) (3/4)
                - quantile (rows.map (fun p => p.2)) (1/4)) ≤ r.2) &&
        decide (r.2 ≤ quantile (rows.map (fun p => p.2)) (3/4)
            + 3/2 * (quantile (rows.map (fun p => p.2)) (3/4)
                - quantile (rows.map (fun p => p.2)) (1/4))))) ∧
    remove_outliers [((0:ℕ),(1:ℚ)),(60,2),(120,3),(180,4),(240,100)] "VarValue"
      = [(0,1),(60,2),(120,3),(180,4)] := by
  constructor
  · unfold remove_outliers
    rw [if_neg h]
  · have hv : "VarValue" ∉ skip_variables := by decide
    unfold remove_outliers
    rw [if_neg hv]
    norm_num [quantile, List.insertionSort, List.orderedInsert, Int.toNat, List.filter]

/-- Witness for C6 at the concrete series [1,2,3,4,100] and the (non-skip)
column name the render callback actually passes. -/
theorem C6_remove_outliers_iqr_witness :
    remove_outliers [((0:ℕ),(1:ℚ)),(60,2),(120,3),(180,4),(240,100)] "VarValue"
      = [(0,1),(60,2),(120,3),(180,4)] :=
  (C6_remove_outliers_iqr [] "VarValue" (by decide)).2

/-- C1 (evaluating the code at the claim's failing input): the variable
`30P001.HMI.DATA_2` is on the skip list, yet the render pipeline still
IQR-filters its series and drops the value 100, because `update_graph` calls
`remove_outliers(df, 'VarValue')` (line 983) and the skip test inside
`remove_outliers` (line 84) compares the COLUMN name, never the variable
name, against `skip_variables`. Only the resampling step (line 985) actually
honours the skip list. -/
theorem C1_skip_variable_outliers_still_removed :
    "30P001.HMI.DATA_2" ∈ skip_variables ∧
    update_graph_series "30P001.HMI.DATA_2"
        [((0:ℕ),(1:ℚ)),(60,2),(120,3),(180,4),(240,100)]
      = [(0,1),(60,2),(120,3),(180,4)] := by
  have hs : "30P001.HMI.DATA_2" ∈ skip_variables := by decide
  have hv : "VarValue" ∉ skip_variables := by decide
  refine ⟨hs, ?_⟩
  simp only [update_graph_series]
  rw [if_neg (not_not_intro hs)]
  unfold remove_outliers
  rw [if_neg hv]
  norm_num [quantile, List.insertionSort, List.orderedInsert, Int.toNat, List.filter]

/-- C5: for a variable not on the skip list, two readings three minutes apart
with values 10 and 20 resample to 1-minute buckets whose intermediate buckets
repeat the prior real value 10 (forward-fill, not interpolation); occupied
buckets carry the mean of their readings. -/
theorem C5_resample_forward_fill (t : ℕ) (var_name : String)
    (h : var_name ∉ skip_variables) :
    update_graph_series var_name [(t, 10), (t + 180, 20)] =
      [(t / 60, 10), (t / 60 + 1, 10), (t / 60 + 2, 10), (t / 60 + 3, 20)] := by
  have hv : "VarValue" ∉ skip_variables := by decide
  have key : remove_outliers [(t, (10:ℚ)), (t + 180, 20)] "VarValue"
      = [(t, 10), (t + 180, 20)] := by
    unfold remove_outliers
    rw [if_neg hv]
    norm_num [quantile, List.insertionSort, List.orderedInsert, Int.toNat, List.filter]
  simp only [update_graph_series]
  rw [if_pos h, key]
  exact resample_two t (t + 180) 10 20 (t / 60) rfl (by omega)

/-- Witness for C5: readings at 0s and 180s with values 10 and 20, for a real
non-skip variable. -/
theorem C5_resample_forward_fill_witness :
    update_graph_series "AI Values_78TT001 - Analog input" [(0, 10), (180, 20)] =
      [(0, 10), (1, 10), (2, 10), (3, 20)] :=
  C5_resample_forward_fill 0 "AI Values_78TT001 - Analog input" (by decide)

lemma axisGo_cons_invariant (h0 : String) :
    ∀ (rest seen : List String) (u : String) (b : Bool),
      (u, b) ∈ axisGo (h0 :: seen) rest → (b = false ↔ u = h0) := by
  intro rest
  induction rest with
  | nil => intro seen u b h; simp [axisGo] at h
  | cons w t ih =>
    intro seen u b h
    rw [show axisGo (h0 :: seen) (w :: t)
        = (w, decide ((if w ∈ h0 :: seen then h0 :: seen
              else (h0 :: seen) ++ [w]).indexOf w + 1 > 1))
          :: axisGo (if w ∈ h0 :: seen then h0 :: seen else (h0 :: seen) ++ [w]) t
        from rfl] at h
    have hs2 : ∃ tail, (if w ∈ h0 :: seen then h0 :: seen else (h0 :: seen) ++ [w])
        = h0 :: tail := by
      by_cases hw : w ∈ h0 :: seen
      · exact ⟨seen, by rw [if_pos hw]⟩
      · exact ⟨seen ++ [w], by rw [if_neg hw]; rfl⟩
    rcases hs2 with ⟨tail, htail⟩
    rw [htail, List.mem_cons] at h
    rcases h with h | h
    · simp only [Prod.mk.injEq] at h
      rcases h with ⟨rfl, rfl⟩
      by_cases hu : u = h0
      · rw [List.indexOf_cons_eq tail hu.symm]
        simp [hu]
      · rw [List.indexOf_cons_ne tail (fun hh => hu hh.symm)]
        simp [hu]
    · exact ih tail u b h

/-- C7: in the plot assembler, a trace sits on the primary Y-axis exactly
when its display unit is the unit of the first plotted group; every other
distinct unit is sent to the one secondary axis, so at most two Y-axes are
ever used (the placement is the Boolean `secondary_y` of a two-axis
figure). -/
theorem C7_axis_allocation (units : List String) (u : String) (b : Bool)
    (h : (u, b) ∈ axis_assignment units) :
    b = false ↔ units.head? = some u := by
  cases units with
  | nil => simp [axis_assignment, axisGo] at h
  | cons u0 rest =>
    have hexp : axis_assignment (u0 :: rest)
        = (u0, false) :: axisGo [u0] rest := by
      show (u0, decide ((if u0 ∈ ([] : List String) then [] else [u0]).indexOf u0 + 1 > 1))
          :: axisGo (if u0 ∈ ([] : List String) then [] else [u0]) rest
        = (u0, false) :: axisGo [u0] rest
      simp [List.indexOf_cons_eq]
    rw [hexp, List.mem_cons] at h
    rcases h with h | h
    · simp only [Prod.mk.injEq] at h
      rcases h with ⟨rfl, rfl⟩
      simp
    · have := axisGo_cons_invariant u0 rest [] u b h
      rw [this]
      simp only [List.head?_cons, Option.some.injEq]
      exact ⟨fun hh => hh.symm, fun hh => hh.symm⟩

/-- Witness for C7: with units C, pH, bar in plot order, the pH trace is on
the secondary axis. -/
theorem C7_axis_allocation_witness :
    ((true = false) ↔ (["C", "pH", "bar"] : List String).head? = some "pH") :=
  C7_axis_allocation ["C", "pH", "bar"] "pH" true (by decide)

lemma variable_names_nodup : variable_names.Nodup := by decide

lemma sanitized_variable_names_nodup : (variable_names.map sanitize_filename).Nodup := by decide

lemma find_filterMap (l : List String) (F : String → List Row) (v : String)
    (hnd : l.Nodup) (hv : v ∈ l) :
    (l.filterMap (fun w => if (F w).isEmpty then none else some (w, F w))).find?
        (fun d => d.1 == v)
      = if (F v).isEmpty then none else some (v, F v) := by
  induction l with
  | nil => cases hv
  | cons w t ih =>
    rcases List.mem_cons.mp hv with rfl | hvt
    · by_cases he : (F v).isEmpty
      · rw [if_pos he]
        have hvnt : v ∉ t := (List.nodup_cons.mp hnd).1
        simp only [List.filterMap_cons, if_pos he]
        apply List.find?_eq_none.mpr
        intro d hd
        rcases List.mem_filterMap.mp hd with ⟨w2, hw2, hsome⟩
        by_cases he2 : (F w2).isEmpty
        · rw [if_pos he2] at hsome; cases hsome
        · rw [if_neg he2] at hsome
          cases hsome
          simp only [Bool.not_eq_true]
          exact beq_eq_false_iff_ne.mpr (fun hh => hvnt (hh ▸ hw2))
      · rw [if_neg he]
        simp only [List.filterMap_cons, if_neg he]
        exact List.find?_cons_of_pos _ (by simp)
    · have hw : w ≠ v := fun hh => (List.nodup_cons.mp hnd).1 (hh ▸ hvt)
      have ht := ih (List.nodup_cons.mp hnd).2 hvt
      by_cases he : (F w).isEmpty
      · simp only [List.filterMap_cons, if_pos he]
        exact ht
      · simp only [List.filterMap_cons, if_neg he]
        rw [List.find?_cons_of_neg _ (by simpa using hw)]
        exact ht

lemma addFrames_spec (acc : List (String × List Row)) (f : RawFrame)
    (hkeys : ∀ kv ∈ acc, kv.1 ∈ variable_names) :
    addFrames acc (frameDict f) = acc.map (fun kv => (kv.1, kv.2 ++ fileRows f kv.1)) := by
  unfold addFrames
  apply List.map_congr_left
  intro kv hkv
  have hfind := find_filterMap variable_names (fileRows f) kv.1
    variable_names_nodup (hkeys kv hkv)
  rw [show frameDict f = variable_names.filterMap
      (fun w => if (fileRows f w).isEmpty then none else some (w, fileRows f w)) from rfl]
  rw [hfind]
  by_cases he : (fileRows f kv.1).isEmpty
  · rw [if_pos he]
    have hnil : fileRows f kv.1 = [] := List.isEmpty_iff.mp he
    simp [hnil]
  · rw [if_neg he]

lemma mergeFold_cons_ok (acc : List (String × List Row)) (f : RawFrame)
    (rest : List RawFrame) {dfs : List (String × List Row)}
    (h : process_csv_file f = .ok dfs) :
    mergeFold acc (f :: rest) = mergeFold (addFrames acc dfs) rest := by
  conv_lhs => rw [mergeFold]
  rw [h]

lemma mergeFold_cons_error (acc : List (String × List Row)) (f : RawFrame)
    (rest : List RawFrame) {e : String}
    (h : process_csv_file f = .error e) :
    mergeFold acc (f :: rest) = .error e := by
  conv_lhs => rw [mergeFold]
  rw [h]

lemma mergeFold_ok (files : List RawFrame) (h : ∀ f ∈ files, "VarName" ∈ f.columns) :
    ∀ acc : List (String × List Row), (∀ kv ∈ acc, kv.1 ∈ variable_names) →
      mergeFold acc files
        = .ok (acc.map (fun kv => (kv.1, kv.2 ++ mergedRows files kv.1))) := by
  induction files with
  | nil =>
    intro acc _
    unfold mergeFold
    have hmap : acc.map (fun kv => (kv.1, kv.2 ++ mergedRows [] kv.1)) = acc := by
      have h2 : ∀ kv ∈ acc, (kv.1, kv.2 ++ mergedRows [] kv.1) = id kv := by
        intro kv _
        simp [mergedRows]
      rw [List.map_congr_left h2, List.map_id]
    rw [hmap]
  | cons f rest ih =>
    intro acc hkeys
    have hf : "VarName" ∈ f.columns := h f (List.mem_cons_self f rest)
    have hrest : ∀ g ∈ rest, "VarName" ∈ g.columns :=
      fun g hg => h g (List.mem_cons_of_mem _ hg)
    have hstep : mergeFold acc (f :: rest) = mergeFold (addFrames acc (frameDict f)) rest :=
      mergeFold_cons_ok acc f rest (by unfold process_csv_file; rw [if_pos hf])
    rw [hstep, addFrames_spec acc f hkeys]
    have hkeys2 : ∀ kv ∈ acc.map (fun kv => (kv.1, kv.2 ++ fileRows f kv.1)),
        kv.1 ∈ variable_names := by
      intro kv hkv
      rcases List.mem_map.mp hkv with ⟨kv0, hkv0, rfl⟩
      exact hkeys kv0 hkv0
    rw [ih hrest _ hkeys2]
    congr 1
    rw [List.map_map]
    apply List.map_congr_left
    intro kv _
    simp [mergedRows, Function.comp_def, List.append_assoc]

lemma mergeFold_isOk (files : List RawFrame) :
    ∀ acc, ((mergeFold acc files).isOk = true ↔ ∀ f ∈ files, "VarName" ∈ f.columns) := by
  induction files with
  | nil =>
    intro acc
    simp [mergeFold, Except.isOk, Except.toBool]
  | cons f rest ih =>
    intro acc
    by_cases hf : "VarName" ∈ f.columns
    · have hstep : mergeFold acc (f :: rest) = mergeFold (addFrames acc (frameDict f)) rest :=
        mergeFold_cons_ok acc f rest (by unfold process_csv_file; rw [if_pos hf])
      rw [hstep, ih]
      simp [hf]
    · have hstep : mergeFold acc (f :: rest) = .error "KeyError: VarName" :=
        mergeFold_cons_error acc f rest (by unfold process_csv_file; rw [if_neg hf])
      rw [hstep]
      simp only [Except.isOk, Except.toBool, Bool.false_eq_true, false_iff]
      intro hall
      exact hf (hall f (List.mem_cons_self f rest))

lemma filter_of_map {α β : Type} (f : α → β) (q : β → Bool) (l : List α) :
    (l.map f).filter q = (l.filter (fun a => q (f a))).map f := by
  induction l with
  | nil => rfl
  | cons a t ih =>
    by_cases hq : q (f a)
    · simp [List.filter_cons, hq, ih]
    · simp [List.filter_cons, hq, ih]

lemma output_file_inj {p v w : String} (hv : v ∈ variable_names) (hw : w ∈ variable_names)
    (h : output_file p v = output_file p w) : v = w := by
  have hd := congrArg String.data h
  unfold output_file at hd
  simp only [String.data_append] at hd
  have h1 := List.append_cancel_right hd
  have h2 := List.append_cancel_left h1
  exact List.inj_on_of_nodup_map sanitized_variable_names_nodup hv hw (string_eq_of_data h2)

/-- C2 counterexample: a single file missing the `VarName` column makes the
whole batch merge abort with an uncaught `KeyError` instead of being skipped:
with the good file alone the merge completes and uploads one blob, but adding
one bad file turns the whole run into an error. -/
theorem C2_counterexample_missing_column_aborts :
    update_file_list emptyAcc [goodFrame, badFrame] "Batch1" = .error "KeyError: VarName"
      ∧ update_file_list emptyAcc [goodFrame] "Batch1"
          = .ok ["Batch1_30P001_HMI_DATA_2.csv"] := by
  constructor
  · rfl
  · rfl

/-- C2 (amended): per-row parse failures are dropped by the CSV reader
(`on_bad_lines='skip'`) and an unparseable filename date is caught in the
date filter, but a missing variable-name column is NOT contained: the batch
merge of `update_file_list` completes normally if and only if every selected
file carries the `VarName` column; one file without it raises `KeyError`
and aborts the whole operation. -/
theorem C2_merge_completes_iff_columns (acc : List (String × List Row))
    (files : List RawFrame) (p : String) :
    (update_file_list acc files p).isOk = true ↔ ∀ f ∈ files, "VarName" ∈ f.columns := by
  unfold update_file_list
  rw [← mergeFold_isOk files emptyAcc]
  cases hm : mergeFold emptyAcc files with
  | error e => simp [Except.isOk, Except.toBool]
  | ok merged => simp [Except.isOk, Except.toBool]

/-- C4: one batch-merge run (with every file carrying the variable-name
column) ignores the previous in-memory accumulator entirely (re-initialized
from empty, line 832); it uploads exactly one blob per variable whose fresh
accumulator is non-empty, in `variable_names` order; a variable with no
matching row in any selected file gets no write at all (its stored file is
left untouched); and the accumulator for a variable is empty exactly when no
row of any selected file names it. -/
theorem C4_merge_frame_effect (prev1 prev2 : List (String × List Row))
    (files : List RawFrame) (p : String)
    (h : ∀ f ∈ files, "VarName" ∈ f.columns) :
    (update_file_list prev1 files p = update_file_list prev2 files p) ∧
    (update_file_list prev1 files p
      = .ok ((variable_names.filter (fun v => !(mergedRows files v).isEmpty)).map
          (output_file p))) ∧
    (∀ v ∈ variable_names, mergedRows files v = [] →
      ∀ names, update_file_list prev1 files p = .ok names → output_file p v ∉ names) ∧
    (∀ v, mergedRows files v = [] ↔
      ∀ f ∈ files, ∀ row ∈ f.rows, ¬ getCell row "VarName" = some v) := by
  have hkeys : ∀ kv ∈ emptyAcc, kv.1 ∈ variable_names := by
    intro kv hkv
    rcases List.mem_map.mp hkv with ⟨v, hv, rfl⟩
    exact hv
  have hmain : update_file_list prev1 files p
      = .ok ((variable_names.filter (fun v => !(mergedRows files v).isEmpty)).map
          (output_file p)) := by
    unfold update_file_list
    rw [mergeFold_ok files h emptyAcc hkeys]
    have hE : emptyAcc.map (fun kv => (kv.1, kv.2 ++ mergedRows files kv.1))
        = variable_names.map (fun v => (v, mergedRows files v)) := by
      unfold emptyAcc
      rw [List.map_map]
      apply List.map_congr_left
      intro v _
      simp
    show Except.ok
        (((emptyAcc.map (fun kv => (kv.1, kv.2 ++ mergedRows files kv.1))).filter
            (fun kv => !kv.2.isEmpty)).map (fun kv => output_file p kv.1))
      = .ok ((variable_names.filter (fun v => !(mergedRows files v).isEmpty)).map
          (output_file p))
    rw [hE, filter_of_map, List.map_map]
    rfl
  refine ⟨rfl, hmain, ?_, ?_⟩
  · intro v hv hempty names heq hmem
    rw [hmain] at heq
    cases heq
    rcases List.mem_map.mp hmem with ⟨w, hwf, hwname⟩
    rcases List.mem_filter.mp hwf with ⟨hwmem, hwnonempty⟩
    have hvw : w = v := output_file_inj hwmem hv hwname
    rw [hvw, hempty] at hwnonempty
    simp at hwnonempty
  · intro v
    unfold mergedRows
    rw [List.flatten_eq_nil_iff]
    constructor
    · intro hall f hf row hrow hcell
      have hfr : fileRows f v = [] := hall (fileRows f v) (List.mem_map_of_mem _ hf)
      have := List.filter_eq_nil_iff.mp hfr row hrow
      rw [hcell] at this
      simp at this
    · intro hall l hl
      rcases List.mem_map.mp hl with ⟨f, hf, rfl⟩
      apply List.filter_eq_nil_iff.mpr
      intro row hrow hpred
      have : getCell row "VarName" = some v := by
        simpa using hpred
      exact hall f hf row hrow this


/-- Witness for C4 at a one-file batch whose file carries the VarName
column. -/
theorem C4_merge_frame_effect_witness :
    update_file_list emptyAcc [goodFrame] "Batch1"
      = .ok ((variable_names.filter
          (fun v => !(mergedRows [goodFrame] v).isEmpty)).map (output_file "Batch1")) := by
  have hcols : ∀ f ∈ [goodFrame], "VarName" ∈ f.columns := by
    intro f hf
    rcases List.mem_cons.mp hf with rfl | h2
    · decide
    · cases h2
  exact (C4_merge_frame_effect emptyAcc [] [goodFrame] "Batch1" hcols).2.1

